import Mathlib

/-!
Verification of the seat-tracker data layer (src/location_tracker.py,
src/statistics.py, src/calendar_view.py) against its specification.

The Python code manipulates `datetime.date` values; we embed CPython's
proleptic-Gregorian date arithmetic (`_ymd2ord`, `_ord2ymd`, `weekday`,
`isocalendar`) faithfully on `Nat`, and Python `dict`s keyed by dates as
association lists with replace-or-append insertion (Python insertion-order
semantics).  Files are modelled as lists of lines, each line a `List Char`
(every line the program writes is newline-terminated, so line lists and
byte strings are in bijection).
-/

set_option maxHeartbeats 1600000
set_option maxRecDepth 8000

namespace SeatTracker

/-- The closed set of valid work location designations
(`LocationDesignation` in src/location_tracker.py). -/
inductive LocationDesignation where
  | HOME
  | LAB
  | TRAVEL
  | WEEKEND
  | VACATION
  | HOLIDAY
  | OTHER
deriving DecidableEq, Repr

open LocationDesignation

/-- `short_code` attribute of each designation. -/
def short_code : LocationDesignation → Char
  | HOME => 'H'
  | LAB => 'L'
  | TRAVEL => 'T'
  | WEEKEND => 'W'
  | VACATION => 'V'
  | HOLIDAY => 'X'
  | OTHER => 'O'

/-- The enum member name, as used in the log-line format. -/
def designation_name : LocationDesignation → List Char
  | HOME => ['H', 'O', 'M', 'E']
  | LAB => ['L', 'A', 'B']
  | TRAVEL => ['T', 'R', 'A', 'V', 'E', 'L']
  | WEEKEND => ['W', 'E', 'E', 'K', 'E', 'N', 'D']
  | VACATION => ['V', 'A', 'C', 'A', 'T', 'I', 'O', 'N']
  | HOLIDAY => ['H', 'O', 'L', 'I', 'D', 'A', 'Y']
  | OTHER => ['O', 'T', 'H', 'E', 'R']

/-- `LocationDesignation[name]` lookup by enum member name
(raising `KeyError` becomes `none`). -/
def designation_from_name (s : List Char) : Option LocationDesignation :=
  if s = designation_name HOME then some HOME
  else if s = designation_name LAB then some LAB
  else if s = designation_name TRAVEL then some TRAVEL
  else if s = designation_name WEEKEND then some WEEKEND
  else if s = designation_name VACATION then some VACATION
  else if s = designation_name HOLIDAY then some HOLIDAY
  else if s = designation_name OTHER then some OTHER
  else none

/-- A calendar date, mirroring `datetime.date` (year, month, day fields). -/
structure Date where
  year : Nat
  month : Nat
  day : Nat
deriving DecidableEq, Repr

/-- Gregorian leap-year test (`calendar.isleap` / `datetime._is_leap`). -/
def is_leap (y : Nat) : Bool :=
  y % 4 = 0 && (y % 100 ≠ 0 || y % 400 = 0)

/-- Number of days in a month (`datetime._days_in_month`). -/
def days_in_month (y m : Nat) : Nat :=
  if m = 2 then (if is_leap y then 29 else 28)
  else if m = 4 ∨ m = 6 ∨ m = 9 ∨ m = 11 then 30
  else 31

/-- The dates representable by `datetime.date`: year 1..9999 and a real
calendar day.  Every `date` object the Python code handles satisfies this. -/
def Date.Valid (d : Date) : Prop :=
  1 ≤ d.year ∧ d.year ≤ 9999 ∧ 1 ≤ d.month ∧ d.month ≤ 12 ∧
    1 ≤ d.day ∧ d.day ≤ days_in_month d.year d.month

instance (d : Date) : Decidable d.Valid := by
  unfold Date.Valid; infer_instance

/-- `datetime._days_before_year`: days before January 1st of `year`. -/
def days_before_year (y : Nat) : Nat :=
  (y - 1) * 365 + (y - 1) / 4 - (y - 1) / 100 + (y - 1) / 400

/-- `datetime._DAYS_BEFORE_MONTH` table (index by month 1..12). -/
def dbm_table (m : Nat) : Nat :=
  match m with
  | 1 => 0 | 2 => 31 | 3 => 59 | 4 => 90 | 5 => 120 | 6 => 151
  | 7 => 181 | 8 => 212 | 9 => 243 | 10 => 273 | 11 => 304 | 12 => 334
  | _ => 0

/-- `datetime._DAYS_IN_MONTH` table (index by month 1..12). -/
def dim_table (m : Nat) : Nat :=
  match m with
  | 1 => 31 | 2 => 28 | 3 => 31 | 4 => 30 | 5 => 31 | 6 => 30
  | 7 => 31 | 8 => 31 | 9 => 30 | 10 => 31 | 11 => 30 | 12 => 31
  | _ => 0

/-- `datetime._days_before_month`. -/
def days_before_month (y m : Nat) : Nat :=
  dbm_table m + (if 2 < m ∧ is_leap y = true then 1 else 0)

/-- `datetime._ymd2ord` / `date.toordinal`: proleptic-Gregorian ordinal,
with 0001-01-01 as ordinal 1. -/
def ymd2ord (d : Date) : Nat :=
  days_before_year d.year + days_before_month d.year d.month + d.day

/-- `datetime._ord2ymd` / `date.fromordinal`. -/
def ord2ymd (n0 : Nat) : Date :=
  let n := n0 - 1
  let n400 := n / 146097
  let r1 := n % 146097
  let n100 := r1 / 36524
  let r2 := r1 % 36524
  let n4 := r2 / 1461
  let r3 := r2 % 1461
  let n1 := r3 / 365
  let r4 := r3 % 365
  let year := n400 * 400 + n100 * 100 + n4 * 4 + n1 + 1
  if n1 = 4 ∨ n100 = 4 then ⟨year - 1, 12, 31⟩
  else
    let leap := n1 = 3 ∧ (n4 ≠ 24 ∨ n100 = 3)
    let month1 := (r4 + 50) / 32
    let prec1 := dbm_table month1 + (if 2 < month1 ∧ leap then 1 else 0)
    if r4 < prec1 then
      let month := month1 - 1
      let preceding := prec1 - (dim_table month + (if month = 2 ∧ leap then 1 else 0))
      ⟨year, month, r4 - preceding + 1⟩
    else
      ⟨year, month1, r4 - prec1 + 1⟩

/-- `date.weekday()`: Monday = 0 .. Sunday = 6. -/
def Date.weekday (d : Date) : Nat :=
  (ymd2ord d + 6) % 7

/-- `datetime._isoweek1monday`: ordinal of the Monday starting ISO week 1
of `year`. -/
def isoweek1monday (year : Nat) : Nat :=
  let firstday := ymd2ord ⟨year, 1, 1⟩
  let firstweekday := (firstday + 6) % 7
  let week1monday := firstday - firstweekday
  if 3 < firstweekday then week1monday + 7 else week1monday

/-- The week component of `date.isocalendar()`, i.e. `_get_week_number` in
src/location_tracker.py.  Mirrors CPython: a negative preliminary week
means the date belongs to the previous ISO year; a preliminary week ≥ 52
may roll over into week 1 of the next ISO year. -/
def iso_week (d : Date) : Nat :=
  let today := ymd2ord d
  let week1monday := isoweek1monday d.year
  if today < week1monday then
    (today - isoweek1monday (d.year - 1)) / 7 + 1
  else
    let week := (today - week1monday) / 7
    if 52 ≤ week ∧ isoweek1monday (d.year + 1) ≤ today then 1
    else week + 1

/-- Chronological order on dates (`datetime.date` comparison: lexicographic
on (year, month, day), which is chronological order for valid dates). -/
def date_le (a b : Date) : Prop :=
  a.year < b.year ∨ (a.year = b.year ∧
    (a.month < b.month ∨ (a.month = b.month ∧ a.day ≤ b.day)))

instance : DecidableRel date_le := fun a b => by
  unfold date_le; infer_instance

/-! ### Character and digit utilities (modelling Python string formatting) -/

/-- The decimal digit character for `n < 10`. -/
def digit_char (n : Nat) : Char :=
  Char.ofNat (48 + n)

/-- Numeric value of a digit character. -/
def char_val (c : Char) : Nat :=
  c.toNat - 48

/-- Matches the regex class `\d`. -/
def is_digit_char (c : Char) : Bool :=
  48 ≤ c.toNat && c.toNat ≤ 57

/-- Matches the regex class `[A-Z]`. -/
def is_upper_char (c : Char) : Bool :=
  65 ≤ c.toNat && c.toNat ≤ 90

/-- Python `str.strip` whitespace characters. -/
def is_space_char (c : Char) : Bool :=
  c = ' ' || c = '\t' || c = '\n' || c = '\r' || c = '\x0b' || c = '\x0c'

/-- Decimal digits with explicit recursion fuel (`n / 10` strictly
decreases, so any fuel bound above `n` realizes the recursion; the fuel
keeps the definition structurally recursive and kernel-computable). -/
def dec_chars_core (fuel n : Nat) : List Char :=
  match fuel with
  | 0 => []
  | fuel + 1 =>
    if n < 10 then [digit_char n]
    else dec_chars_core fuel (n / 10) ++ [digit_char (n % 10)]

/-- Decimal digits of `n`, most significant first (Python `str(n)` for a
nonnegative int); satisfies the recurrence `dec_chars_eq` below. -/
def dec_chars (n : Nat) : List Char :=
  dec_chars_core (n + 1) n

/-- Zero-pad on the left to width `w` (Python `f string` `0w d` padding). -/
def fmt_nat_pad (w n : Nat) : List Char :=
  List.replicate (w - (dec_chars n).length) '0' ++ dec_chars n

/-- Remove trailing whitespace. -/
def drop_trail_spaces : List Char → List Char
  | [] => []
  | c :: t =>
    let r := drop_trail_spaces t
    if r = [] then (if is_space_char c then [] else [c]) else c :: r

/-- Python `str.strip()`. -/
def strip_chars (l : List Char) : List Char :=
  drop_trail_spaces (l.dropWhile is_space_char)

/-! ### Log codec (src/location_tracker.py lines 80-108) -/

/-- `date.isoformat()`: `YYYY-MM-DD`. -/
def iso_format (d : Date) : List Char :=
  fmt_nat_pad 4 d.year ++ '-' :: fmt_nat_pad 2 d.month ++ '-' :: fmt_nat_pad 2 d.day

/-- `LocationTracker._format_log_line`: the week number is recomputed from
the date via `_get_week_number`; the stored designation name is the enum
member name. -/
def format_log_line (d : Date) (g : LocationDesignation) : List Char :=
  iso_format d ++ '|' :: 'W' :: fmt_nat_pad 2 (iso_week d) ++ '|' :: designation_name g

/-- The post-strip body of `LocationTracker._parse_log_line`: blank lines
and lines starting with a hash are skipped (`none`); otherwise the line
must match the anchored regex `\d{4}-\d{2}-\d{2}\|W\d{2}\|[A-Z]+` exactly,
the date must be constructible (`strptime` validity), and the designation
name must be a member of the enum; any failure gives `none`. -/
def parse_core : List Char → Option (Date × LocationDesignation × Nat)
  | [] => none
  | c1 :: rest1 =>
    if c1 = '#' then none
    else
      match c1 :: rest1 with
      | y1 :: y2 :: y3 :: y4 :: d1 :: m1 :: m2 :: d2 :: a1 :: a2 ::
          p1 :: wc :: w1 :: w2 :: p2 :: name =>
        if is_digit_char y1 = true ∧ is_digit_char y2 = true ∧ is_digit_char y3 = true ∧
            is_digit_char y4 = true ∧ d1 = '-' ∧ is_digit_char m1 = true ∧
            is_digit_char m2 = true ∧ d2 = '-' ∧ is_digit_char a1 = true ∧
            is_digit_char a2 = true ∧ p1 = '|' ∧ wc = 'W' ∧ is_digit_char w1 = true ∧
            is_digit_char w2 = true ∧ p2 = '|' ∧ name ≠ [] ∧
            name.all is_upper_char = true then
          let y := char_val y1 * 1000 + char_val y2 * 100 + char_val y3 * 10 + char_val y4
          let mo := char_val m1 * 10 + char_val m2
          let dd := char_val a1 * 10 + char_val a2
          let wk := char_val w1 * 10 + char_val w2
          if (⟨y, mo, dd⟩ : Date).Valid then
            match designation_from_name name with
            | some g => some (⟨y, mo, dd⟩, g, wk)
            | none => none
          else none
        else none
      | _ => none

/-- `LocationTracker._parse_log_line` = strip, then match. -/
def parse_log_line (l : List Char) : Option (Date × LocationDesignation × Nat) :=
  parse_core (strip_chars l)

/-! ### Python dict over dates (association list, insertion order kept) -/

/-- A loaded year map: `Dict[datetime.date, LocationDesignation]`. -/
abbrev YearData := List (Date × LocationDesignation)

/-- `data[k] = v`: replace the value of an existing key in place, else
append (Python dict assignment). -/
def dict_insert (k : Date) (v : LocationDesignation) : YearData → YearData
  | [] => [(k, v)]
  | p :: t => if p.1 = k then (k, v) :: t else p :: dict_insert k v t

/-- `data.get(k)` / `data[k]` lookup. -/
def dict_find (k : Date) : YearData → Option LocationDesignation
  | [] => none
  | p :: t => if p.1 = k then some p.2 else dict_find k t

/-- `k in data`. -/
def dict_mem (k : Date) (m : YearData) : Bool :=
  (dict_find k m).isSome

/-- `del data[k]`. -/
def dict_remove (k : Date) : YearData → YearData
  | [] => []
  | p :: t => if p.1 = k then dict_remove k t else p :: dict_remove k t

/-- `data[k]` for a key known to be present (`KeyError` is unreachable in
the modelled code paths; the default is arbitrary). -/
def data_at (m : YearData) (k : Date) : LocationDesignation :=
  (dict_find k m).getD LocationDesignation.HOME

/-! ### Tracker (src/location_tracker.py) -/

/-- `LocationTracker._get_default_designation`. -/
def get_default_designation (d : Date) : LocationDesignation :=
  let weekday := d.weekday
  if weekday = 0 ∨ weekday = 4 then LocationDesignation.HOME
  else if weekday = 1 ∨ weekday = 2 ∨ weekday = 3 then LocationDesignation.LAB
  else LocationDesignation.WEEKEND

/-- `LocationTracker.load_year_data`, with the year file given as its list
of (newline-terminated) lines.  Parsed lines are inserted in file order,
so a later line overwrites an earlier line with the same date. -/
def load_year_data (file : List (List Char)) : YearData :=
  file.foldl
    (fun data line =>
      match parse_log_line line with
      | some (d, g, _) => dict_insert d g data
      | none => data)
    []

/-- The four comment header lines plus the blank line that
`save_year_data` writes before the entries. -/
def header_lines (year : Nat) : List (List Char) :=
  [ ("# Work Location Log for ").toList ++ dec_chars year,
    ("# Format: YYYY-MM-DD|WXX|DESIGNATION").toList,
    ("# Week ends on Sunday, new week starts on Monday").toList,
    ("# Valid designations: HOME(H), LAB(L), TRAVEL(T), WEEKEND(W), VACATION(V), HOLIDAY(X), OTHER(O)").toList,
    [] ]

instance : IsTotal Date date_le :=
  ⟨by intro a b; unfold date_le; omega⟩

instance : IsTrans Date date_le :=
  ⟨by intro a b c; unfold date_le; omega⟩

/-- Modelling Python `sorted(data.keys())`: sort by chronological order. -/
def sort_dates (l : List Date) : List Date :=
  List.insertionSort date_le l

/-- `LocationTracker.save_year_data`: the file content (as lines) written
for `year`: header, blank line, then one formatted line per entry in
ascending date order. -/
def save_year_data (year : Nat) (data : YearData) : List (List Char) :=
  header_lines year ++
    (sort_dates (data.map Prod.fst)).map (fun d => format_log_line d (data_at data d))

/-- `LocationTracker.get_designation`: `store` models `load_year_data` for
each year (the per-year explicit maps on disk). -/
def get_designation (store : Nat → YearData) (d : Date) : LocationDesignation :=
  match dict_find d (store d.year) with
  | some g => g
  | none => get_default_designation d

/-- The Saturday of the Monday-start week containing `d`
(`week_start + 5 days` in `_auto_populate_weekend`). -/
def week_saturday (d : Date) : Date :=
  ord2ymd (ymd2ord d - d.weekday + 5)

/-- The Sunday of the Monday-start week containing `d`. -/
def week_sunday (d : Date) : Date :=
  ord2ymd (ymd2ord d - d.weekday + 6)

/-- `LocationTracker._auto_populate_weekend`: add Weekend entries for the
Saturday and Sunday of the week of `d` when those dates are absent. -/
def auto_populate_weekend (d : Date) (data : YearData) : YearData :=
  let saturday := week_saturday d
  let sunday := week_sunday d
  let data1 := if dict_mem saturday data then data
    else dict_insert saturday LocationDesignation.WEEKEND data
  if dict_mem sunday data1 then data1
  else dict_insert sunday LocationDesignation.WEEKEND data1

/-- `LocationTracker.set_designation` at the data level: `data` is the
loaded map for `d.year`; the result is the map passed to
`save_year_data`. -/
def set_designation (d : Date) (g : LocationDesignation) (auto_weekend : Bool)
    (data : YearData) : YearData :=
  let data1 := dict_insert d g data
  if auto_weekend then auto_populate_weekend d data1 else data1

/-- `LocationTracker.delete_designation` at the data level: the returned
flag, and `some` of the map written back when a save happens (`none`
means the file is not rewritten). -/
def delete_designation (d : Date) (data : YearData) : Bool × Option YearData :=
  if dict_mem d data then (true, some (dict_remove d data))
  else (false, none)

/-- The validation errors `LocationTracker.validate_data` emits for one
line (with its 1-indexed line number). -/
def line_errors (year : Nat) (line_num : Nat) (line : List Char) : List (List Char) :=
  let s := strip_chars line
  if s = [] then []
  else if s.head? = some '#' then []
  else
    match parse_log_line s with
    | none =>
      [("Line ").toList ++ dec_chars line_num ++ (": Invalid format - ").toList ++ s]
    | some (d, _, wk) =>
      let expected := iso_week d
      (if wk ≠ expected then
        [("Line ").toList ++ dec_chars line_num ++
          (": Week number mismatch for ").toList ++ iso_format d ++
          (" (expected W").toList ++ fmt_nat_pad 2 expected ++
          (", got W").toList ++ fmt_nat_pad 2 wk ++ (")").toList]
       else []) ++
      (if d.year ≠ year then
        [("Line ").toList ++ dec_chars line_num ++ (": Date ").toList ++ iso_format d ++
          (" doesn\x27t belong in ").toList ++ dec_chars year ++ (".log").toList]
       else [])

/-- `LocationTracker.validate_data` with the year file given as its lines:
collects the per-line errors in order, lines numbered from 1. -/
def validate_data (year : Nat) (file : List (List Char)) : List (List Char) :=
  (file.enum.map (fun p => line_errors year (p.1 + 1) p.2)).flatten

/-! ### Statistics (src/statistics.py) -/

/-- `LocationStatistics._format_percentage`.  `count / total * 100`
rendered with one decimal digit; the float rounding of CPython `.1f`
(round half to even on the double value) is modelled as exact rational
rounding half to even.  A zero total short-circuits to `0.0%`. -/
def format_percentage (count total : Nat) : List Char :=
  if total = 0 then ('0' :: '.' :: '0' :: '%' :: [])
  else
    let num := count * 1000
    let q := num / total
    let r := num % total
    let tenths :=
      if total < 2 * r then q + 1
      else if 2 * r < total then q
      else if q % 2 = 0 then q else q + 1
    dec_chars (tenths / 10) ++ '.' :: dec_chars (tenths % 10) ++ ('%' :: [])

/-- The dates iterated by the `while current_date <= end_date` loop of
`get_period_stats` (one per ordinal from `start` to `end` inclusive). -/
def period_dates (s e : Date) : List Date :=
  (List.range (ymd2ord e + 1 - ymd2ord s)).map (fun i => ord2ymd (ymd2ord s + i))

/-- The `actual_entries` dict built by `get_period_stats`: explicit
entries only, keyed by date. -/
def period_entries (store : Nat → YearData) (s e : Date) : YearData :=
  (period_dates s e).foldl
    (fun acc d =>
      match dict_find d (store d.year) with
      | some g => dict_insert d g acc
      | none => acc)
    []

/-- The result dictionary of `LocationStatistics.get_period_stats`. -/
structure PeriodStats where
  start_date : Date
  end_date : Date
  requested_days : Int
  actual_days : Nat
  total_days : Nat
  counts : LocationDesignation → Nat
  percentages : LocationDesignation → List Char

/-- `LocationStatistics.get_period_stats`: requested days is the inclusive
span; only explicit entries are collected; counts are `Counter` counts of
the collected values; each percentage divides by `actual_days`. -/
def get_period_stats (store : Nat → YearData) (s e : Date) : PeriodStats :=
  let entries := period_entries store s e
  let actual_days := entries.length
  { start_date := s
    end_date := e
    requested_days := (ymd2ord e : Int) - (ymd2ord s : Int) + 1
    actual_days := actual_days
    total_days := actual_days
    counts := fun g => (entries.map Prod.snd).count g
    percentages := fun g => format_percentage ((entries.map Prod.snd).count g) actual_days }

/-! ### Calendar renderer (src/calendar_view.py) -/

/-- `calendar.monthcalendar` cell list before chunking: leading zeros for
days of the previous month, the month days, trailing zeros to a multiple
of 7 (weeks start Monday, the default `firstweekday=0`). -/
def month_calendar_cells (y m : Nat) : List Nat :=
  let first_wd := Date.weekday ⟨y, m, 1⟩
  let n := days_in_month y m
  List.replicate first_wd 0 ++ (List.range n).map (fun i => i + 1) ++
    List.replicate ((7 - (first_wd + n) % 7) % 7) 0

/-- Splitting into weeks of 7 cells, with explicit recursion fuel (each
step drops at least one cell, so any fuel bound at or above the list
length realizes the recursion; the fuel keeps the definition
structurally recursive and kernel-computable). -/
def chunk7_core (fuel : Nat) (l : List Nat) : List (List Nat) :=
  match fuel, l with
  | 0, _ => []
  | _ + 1, [] => []
  | fuel + 1, c :: t => ((c :: t).take 7) :: chunk7_core fuel ((c :: t).drop 7)

/-- Split into weeks of 7 cells; satisfies the recurrence `chunk7_eq`
below. -/
def chunk7 (l : List Nat) : List (List Nat) :=
  chunk7_core l.length l

/-- `calendar.monthcalendar(y, m)`. -/
def month_calendar (y m : Nat) : List (List Nat) :=
  chunk7 (month_calendar_cells y m)

/-- The `week_dates` computed by `CalendarView.render_month` for one grid
week: anchored at the first in-month day, covering all 7 columns
(including days of the adjacent months). -/
def week_dates (y m : Nat) (week : List Nat) : List (Option Date) :=
  match week.find? (fun d => decide (d ≠ 0)) with
  | some first_month_day =>
    let anchor : Date := ⟨y, m, first_month_day⟩
    let anchor_weekday := anchor.weekday
    (List.range 7).map (fun day_idx => some (ord2ymd (ymd2ord anchor + day_idx - anchor_weekday)))
  | none => List.replicate 7 none

/-- Which loaded map a grid day is resolved against: the previous year's
data (loaded only when rendering January), the next year's data (loaded
only when rendering December), or the rendered year's data. -/
def year_data_for (store : Nat → YearData) (year month : Nat) (d : Date) : YearData :=
  let prev_year_data := if month = 1 then store (year - 1) else []
  let next_year_data := if month = 12 then store (year + 1) else []
  if d.year < year then prev_year_data
  else if year < d.year then next_year_data
  else store year

/-- One cell of the designation row (`use_color = False`): the short code
between spaces when the date has an explicit entry in `year_data`, else a
blank 3-character cell.  The weekday default is never consulted. -/
def designation_cell (year_data : YearData) (d : Date) : List Char :=
  match dict_find d year_data with
  | some g => (' ' :: short_code g :: ' ' :: [])
  | none => (' ' :: ' ' :: ' ' :: [])

/-- The designation rows of `CalendarView.render_month` (one list of 7
cells per grid week), with color disabled. -/
def render_month_designation_rows (store : Nat → YearData) (year month : Nat) :
    List (List (List Char)) :=
  (month_calendar year month).map (fun week =>
    (week_dates year month week).map (fun od =>
      match od with
      | some d => designation_cell (year_data_for store year month d) d
      | none => (' ' :: ' ' :: ' ' :: [])))

end SeatTracker

namespace SeatTracker

/-! ## Correctness of the ordinal conversion (CPython `_ord2ymd` / `_ymd2ord`) -/

/-- The `_DAYS_BEFORE_MONTH` / `_DAYS_IN_MONTH` values for each month. -/
theorem month_table_fact (M : Nat) (h1 : 1 ≤ M) (h2 : M ≤ 12) :
    (M = 1 ∧ dbm_table M = 0 ∧ dbm_table (M - 1) = 0 ∧ dim_table (M - 1) = 0) ∨
    (M = 2 ∧ dbm_table M = 31 ∧ dbm_table (M - 1) = 0 ∧ dim_table (M - 1) = 31) ∨
    (M = 3 ∧ dbm_table M = 59 ∧ dbm_table (M - 1) = 31 ∧ dim_table (M - 1) = 28) ∨
    (M = 4 ∧ dbm_table M = 90 ∧ dbm_table (M - 1) = 59 ∧ dim_table (M - 1) = 31) ∨
    (M = 5 ∧ dbm_table M = 120 ∧ dbm_table (M - 1) = 90 ∧ dim_table (M - 1) = 30) ∨
    (M = 6 ∧ dbm_table M = 151 ∧ dbm_table (M - 1) = 120 ∧ dim_table (M - 1) = 31) ∨
    (M = 7 ∧ dbm_table M = 181 ∧ dbm_table (M - 1) = 151 ∧ dim_table (M - 1) = 30) ∨
    (M = 8 ∧ dbm_table M = 212 ∧ dbm_table (M - 1) = 181 ∧ dim_table (M - 1) = 31) ∨
    (M = 9 ∧ dbm_table M = 243 ∧ dbm_table (M - 1) = 212 ∧ dim_table (M - 1) = 31) ∨
    (M = 10 ∧ dbm_table M = 273 ∧ dbm_table (M - 1) = 243 ∧ dim_table (M - 1) = 30) ∨
    (M = 11 ∧ dbm_table M = 304 ∧ dbm_table (M - 1) = 273 ∧ dim_table (M - 1) = 31) ∨
    (M = 12 ∧ dbm_table M = 334 ∧ dbm_table (M - 1) = 304 ∧ dim_table (M - 1) = 30) := by
  interval_cases M <;> norm_num [dbm_table, dim_table]

/-- Round trip for the last-day-of-cycle branch of `_ord2ymd`. -/
theorem ord_round_pos (n0 s1 s2 s3 s4 q400 q100 q4 q1 : Nat)
    (b1 : s1 < 146097) (e1 : 146097 * q400 + s1 = n0 - 1)
    (b2 : s2 < 36524) (e2 : 36524 * q100 + s2 = s1)
    (b3 : s3 < 1461) (e3 : 1461 * q4 + s3 = s2)
    (b4 : s4 < 365) (e4 : 365 * q1 + s4 = s3)
    (h : 1 ≤ n0)
    (hc : q1 = 4 ∨ q100 = 4) :
    ymd2ord ⟨q400 * 400 + q100 * 100 + q4 * 4 + q1 + 1 - 1, 12, 31⟩ = n0 := by
  have hz : q400 * 400 + q100 * 100 + q4 * 4 + q1 + 1 - 1 =
      q400 * 400 + q100 * 100 + q4 * 4 + q1 := by omega
  rw [hz]
  rcases hc with hc | hc
  · subst hc
    obtain ⟨T, hT⟩ : ∃ T, q400 * 400 + q100 * 100 + q4 * 4 + 4 = T + 1 :=
      ⟨q400 * 400 + q100 * 100 + q4 * 4 + 3, by omega⟩
    rw [hT]
    simp only [ymd2ord, days_before_year, days_before_month, dbm_table, is_leap,
      Bool.and_eq_true, Bool.or_eq_true, decide_eq_true_eq, ne_eq, Nat.add_sub_cancel]
    have hx1 : q100 ≤ 3 := by omega
    have hx2 : q4 ≤ 24 := by omega
    have h4 : T / 4 = 100 * q400 + 25 * q100 + q4 := by omega
    have h100 : T / 100 = 4 * q400 + q100 := by omega
    have h400 : T / 400 = q400 := by omega
    split_ifs <;> omega
  · subst hc
    have hx0 : q4 = 0 ∧ q1 = 0 ∧ s2 = 0 ∧ s3 = 0 ∧ s4 = 0 := by omega
    obtain ⟨T, hT⟩ : ∃ T, q400 * 400 + 4 * 100 + q4 * 4 + q1 = T + 1 :=
      ⟨q400 * 400 + 4 * 100 + q4 * 4 + q1 - 1, by omega⟩
    rw [hT]
    simp only [ymd2ord, days_before_year, days_before_month, dbm_table, is_leap,
      Bool.and_eq_true, Bool.or_eq_true, decide_eq_true_eq, ne_eq, Nat.add_sub_cancel]
    have h4 : T / 4 = 100 * q400 + 99 := by omega
    have h100 : T / 100 = 4 * q400 + 3 := by omega
    have h400 : T / 400 = q400 := by omega
    split_ifs <;> omega

/-- Round trip for the in-year branch of `_ord2ymd`. -/
theorem ord_round_neg (n0 s1 s2 s3 s4 q400 q100 q4 q1 Z M A B C : Nat)
    (b1 : s1 < 146097) (e1 : 146097 * q400 + s1 = n0 - 1)
    (b2 : s2 < 36524) (e2 : 36524 * q100 + s2 = s1)
    (b3 : s3 < 1461) (e3 : 1461 * q4 + s3 = s2)
    (b4 : s4 < 365) (e4 : 365 * q1 + s4 = s3)
    (h : 1 ≤ n0)
    (hY : q400 * 400 + q100 * 100 + q4 * 4 + q1 = Z)
    (hq1 : q1 ≤ 3) (hq100 : q100 ≤ 3)
    (hM : (s4 + 50) / 32 = M)
    (hA : dbm_table M = A) (hB : dbm_table (M - 1) = B) (hC : dim_table (M - 1) = C)
    (htab :
      (M = 1 ∧ A = 0 ∧ B = 0 ∧ C = 0) ∨
      (M = 2 ∧ A = 31 ∧ B = 0 ∧ C = 31) ∨
      (M = 3 ∧ A = 59 ∧ B = 31 ∧ C = 28) ∨
      (M = 4 ∧ A = 90 ∧ B = 59 ∧ C = 31) ∨
      (M = 5 ∧ A = 120 ∧ B = 90 ∧ C = 30) ∨
      (M = 6 ∧ A = 151 ∧ B = 120 ∧ C = 31) ∨
      (M = 7 ∧ A = 181 ∧ B = 151 ∧ C = 30) ∨
      (M = 8 ∧ A = 212 ∧ B = 181 ∧ C = 31) ∨
      (M = 9 ∧ A = 243 ∧ B = 212 ∧ C = 31) ∨
      (M = 10 ∧ A = 273 ∧ B = 243 ∧ C = 30) ∨
      (M = 11 ∧ A = 304 ∧ B = 273 ∧ C = 31) ∨
      (M = 12 ∧ A = 334 ∧ B = 304 ∧ C = 30)) :
    ymd2ord
      (if s4 < A + (if 2 < M ∧ (q1 = 3 ∧ (q4 ≠ 24 ∨ q100 = 3)) then 1 else 0) then
        ⟨Z + 1, M - 1,
          s4 - (A + (if 2 < M ∧ (q1 = 3 ∧ (q4 ≠ 24 ∨ q100 = 3)) then 1 else 0) -
            (C + (if M - 1 = 2 ∧ (q1 = 3 ∧ (q4 ≠ 24 ∨ q100 = 3)) then 1 else 0))) + 1⟩
      else ⟨Z + 1, M, s4 - (A + (if 2 < M ∧ (q1 = 3 ∧ (q4 ≠ 24 ∨ q100 = 3)) then 1 else 0)) + 1⟩) =
      n0 := by
  have hq4 : q4 ≤ 24 := by omega
  have h4 : Z / 4 = 100 * q400 + 25 * q100 + q4 := by omega
  have h100 : Z / 100 = 4 * q400 + q100 := by omega
  have h400 : Z / 400 = q400 := by omega
  split_ifs <;>
    (simp only [ymd2ord, days_before_year, days_before_month, is_leap, Bool.and_eq_true,
       Bool.or_eq_true, decide_eq_true_eq, ne_eq, Nat.add_sub_cancel]
     try rw [hB]
     try rw [hA]) <;>
    split_ifs <;> omega

/-- CPython ordinal round trip: `_ymd2ord (_ord2ymd n) = n` for every
ordinal `n ≥ 1`. -/
theorem ymd2ord_ord2ymd (n0 : Nat) (h : 1 ≤ n0) : ymd2ord (ord2ymd n0) = n0 := by
  unfold ord2ymd
  dsimp only
  have e1 := Nat.div_add_mod (n0 - 1) 146097
  have b1 : (n0 - 1) % 146097 < 146097 := Nat.mod_lt _ (by norm_num)
  set q400 := (n0 - 1) / 146097 with hq400
  set s1 := (n0 - 1) % 146097 with hs1
  have e2 := Nat.div_add_mod s1 36524
  have b2 : s1 % 36524 < 36524 := Nat.mod_lt _ (by norm_num)
  set q100 := s1 / 36524 with hq100
  set s2 := s1 % 36524 with hs2
  have e3 := Nat.div_add_mod s2 1461
  have b3 : s2 % 1461 < 1461 := Nat.mod_lt _ (by norm_num)
  set q4 := s2 / 1461 with hq4
  set s3 := s2 % 1461 with hs3
  have e4 := Nat.div_add_mod s3 365
  have b4 : s3 % 365 < 365 := Nat.mod_lt _ (by norm_num)
  set q1 := s3 / 365 with hq1
  set s4 := s3 % 365 with hs4
  clear_value q400 s1 q100 s2 q4 s3 q1 s4
  clear hq400 hs1 hq100 hs2 hq4 hs3 hq1 hs4
  by_cases hc : q1 = 4 ∨ q100 = 4
  · rw [if_pos hc]
    exact ord_round_pos n0 s1 s2 s3 s4 q400 q100 q4 q1 b1 e1 b2 e2 b3 e3 b4 e4 h hc
  · rw [if_neg hc]
    push_neg at hc
    exact ord_round_neg n0 s1 s2 s3 s4 q400 q100 q4 q1
      (q400 * 400 + q100 * 100 + q4 * 4 + q1) ((s4 + 50) / 32)
      (dbm_table ((s4 + 50) / 32)) (dbm_table ((s4 + 50) / 32 - 1))
      (dim_table ((s4 + 50) / 32 - 1))
      b1 e1 b2 e2 b3 e3 b4 e4 h rfl (by omega) (by omega) rfl rfl rfl rfl
      (month_table_fact ((s4 + 50) / 32) (by omega) (by omega))

/-- `ord2ymd` is injective on ordinals ≥ 1. -/
theorem ord2ymd_inj (a b : Nat) (ha : 1 ≤ a) (hb : 1 ≤ b)
    (h : ord2ymd a = ord2ymd b) : a = b := by
  have := ymd2ord_ord2ymd a ha
  have := ymd2ord_ord2ymd b hb
  rw [h] at *
  omega

end SeatTracker

namespace SeatTracker



open LocationDesignation


theorem jan1_eq (y : Nat) : ymd2ord ⟨y, 1, 1⟩ =
    (y - 1) * 365 + (y - 1) / 4 - (y - 1) / 100 + (y - 1) / 400 + 1 := by
  simp [ymd2ord, days_before_year, days_before_month, dbm_table]

theorem jan1_succ_le (y : Nat) :
    ymd2ord ⟨y + 1, 1, 1⟩ ≤ ymd2ord ⟨y, 1, 1⟩ + 366 := by
  rw [jan1_eq, jan1_eq]
  omega

theorem isoweek1monday_bounds (y : Nat) :
    ymd2ord ⟨y, 1, 1⟩ ≤ isoweek1monday y + 6 ∧ isoweek1monday y ≤ ymd2ord ⟨y, 1, 1⟩ + 3 := by
  have hg : 1 ≤ ymd2ord ⟨y, 1, 1⟩ := by rw [jan1_eq]; omega
  unfold isoweek1monday
  dsimp only
  obtain ⟨m, hm⟩ : ∃ m, (ymd2ord ⟨y, 1, 1⟩ + 6) % 7 = m := ⟨_, rfl⟩
  have hm7 : m < 7 := by omega
  rw [hm]
  split_ifs <;> omega

theorem ymd2ord_pos (d : Date) (h : 1 ≤ d.day) : 1 ≤ ymd2ord d := by
  unfold ymd2ord
  omega

/-- The ISO week number CPython computes is at most 54 (in fact at most
53), for any ordinal-representable date. -/
theorem iso_week_le (d : Date) (hv : d.Valid) : iso_week d ≤ 54 := by
  obtain ⟨hy1, hy2, hm1, hm2, hd1, hd2⟩ := hv
  unfold iso_week
  dsimp only
  have hpos : 1 ≤ ymd2ord d := ymd2ord_pos d hd1
  have hb0 := isoweek1monday_bounds (d.year - 1)
  have hb1 := isoweek1monday_bounds d.year
  have hb2 := isoweek1monday_bounds (d.year + 1)
  have hs0 : ymd2ord ⟨d.year, 1, 1⟩ ≤ ymd2ord ⟨d.year - 1, 1, 1⟩ + 366 := by
    have := jan1_succ_le (d.year - 1)
    have hy : d.year - 1 + 1 = d.year := by omega
    rw [hy] at this
    exact this
  have hs1 := jan1_succ_le d.year
  split_ifs with h1 h2
  · obtain ⟨D, hD⟩ : ∃ D, ymd2ord d - isoweek1monday (d.year - 1) = D := ⟨_, rfl⟩
    rw [hD]
    have : D ≤ 375 := by omega
    omega
  · omega
  · obtain ⟨D, hD⟩ : ∃ D, ymd2ord d - isoweek1monday d.year = D := ⟨_, rfl⟩
    rw [hD] at h2 ⊢
    push_neg at h2
    rcases Nat.lt_or_ge (D / 7) 52 with hw | hw
    · omega
    · have hlt := h2 hw
      have : D ≤ 375 := by omega
      omega



/-! ### Digit character facts -/

theorem digit_char_facts (k : Nat) (h : k < 10) :
    is_digit_char (digit_char k) = true ∧ char_val (digit_char k) = k ∧
      is_space_char (digit_char k) = false ∧ digit_char k ≠ '#' := by
  interval_cases k <;> exact ⟨rfl, rfl, rfl, by decide⟩

theorem dec_chars_core_irrel (f1 : Nat) : ∀ (f2 n : Nat), n < f1 → n < f2 →
    dec_chars_core f1 n = dec_chars_core f2 n := by
  induction f1 using Nat.strong_induction_on with
  | _ f1 ih =>
    intro f2 n h1 h2
    rcases f1 with _ | fa
    · omega
    · rcases f2 with _ | fb
      · omega
      · rw [dec_chars_core, dec_chars_core]
        by_cases h10 : n < 10
        · rw [if_pos h10, if_pos h10]
        · rw [if_neg h10, if_neg h10]
          congr 1
          exact ih fa (by omega) fb (n / 10) (by omega) (by omega)

/-- `dec_chars` satisfies the recurrence of Python decimal printing. -/
theorem dec_chars_eq (n : Nat) : dec_chars n =
    if n < 10 then [digit_char n] else dec_chars (n / 10) ++ [digit_char (n % 10)] := by
  unfold dec_chars
  rw [dec_chars_core]
  by_cases h10 : n < 10
  · rw [if_pos h10, if_pos h10]
  · rw [if_neg h10, if_neg h10]
    congr 1
    exact dec_chars_core_irrel n (n / 10 + 1) (n / 10) (by omega) (by omega)

theorem dec_chars_mem (n : Nat) :
    ∀ c ∈ dec_chars n, ∃ k, k < 10 ∧ c = digit_char k := by
  induction n using Nat.strong_induction_on with
  | _ n ih =>
    intro c hc
    rw [dec_chars_eq] at hc
    by_cases h : n < 10
    · rw [if_pos h] at hc
      simp at hc
      exact ⟨n, h, hc⟩
    · rw [if_neg h] at hc
      rw [List.mem_append] at hc
      rcases hc with hc | hc
      · exact ih (n / 10) (by omega) c hc
      · simp at hc
        exact ⟨n % 10, by omega, hc⟩

theorem dec_chars_lt10 (n : Nat) (h : n < 10) : dec_chars n = [digit_char n] := by
  rw [dec_chars_eq, if_pos h]

theorem dec_chars_two (n : Nat) (h1 : 10 ≤ n) (h2 : n < 100) :
    dec_chars n = [digit_char (n / 10), digit_char (n % 10)] := by
  rw [dec_chars_eq, if_neg (by omega), dec_chars_lt10 _ (by omega)]
  rfl

theorem pad2_eq (n : Nat) (h : n < 100) :
    fmt_nat_pad 2 n = [digit_char (n / 10), digit_char (n % 10)] := by
  unfold fmt_nat_pad
  by_cases h10 : n < 10
  · rw [dec_chars_lt10 _ h10]
    have hq : n / 10 = 0 := by omega
    have hr : n % 10 = n := by omega
    rw [hq, hr]
    rfl
  · rw [dec_chars_two n (by omega) h]
    rfl

theorem pad4_eq (n : Nat) (h : n < 10000) :
    fmt_nat_pad 4 n = [digit_char (n / 1000), digit_char (n / 100 % 10),
      digit_char (n / 10 % 10), digit_char (n % 10)] := by
  unfold fmt_nat_pad
  by_cases h10 : n < 10
  · rw [dec_chars_lt10 _ h10]
    have e1 : n / 1000 = 0 := by omega
    have e2 : n / 100 % 10 = 0 := by omega
    have e3 : n / 10 % 10 = 0 := by omega
    have e4 : n % 10 = n := by omega
    rw [e1, e2, e3, e4]
    rfl
  · by_cases h100 : n < 100
    · rw [dec_chars_two n (by omega) h100]
      have e1 : n / 1000 = 0 := by omega
      have e2 : n / 100 % 10 = 0 := by omega
      have e3 : n / 10 % 10 = n / 10 := by omega
      rw [e1, e2, e3]
      rfl
    · by_cases h1000 : n < 1000
      · rw [dec_chars_eq, if_neg (by omega), dec_chars_two (n / 10) (by omega) (by omega)]
        have e1 : n / 1000 = 0 := by omega
        have e2 : n / 10 / 10 = n / 100 % 10 := by omega
        have e3 : n / 10 % 10 = n / 10 % 10 := rfl
        rw [e1, e2]
        rfl
      · rw [dec_chars_eq, if_neg (by omega), dec_chars_eq (n / 10), if_neg (by omega),
          dec_chars_two (n / 10 / 10) (by omega) (by omega)]
        have e1 : n / 10 / 10 / 10 = n / 1000 := by omega
        have e2 : n / 10 / 10 % 10 = n / 100 % 10 := by omega
        rw [e1, e2]
        rfl

/-! ### Strip facts -/

theorem drop_trail_of_nonspace (l : List Char)
    (h : ∀ c ∈ l, is_space_char c = false) : drop_trail_spaces l = l := by
  induction l with
  | nil => rfl
  | cons c t ih =>
    unfold drop_trail_spaces
    dsimp only
    rw [ih (fun x hx => h x (List.mem_cons_of_mem c hx))]
    rcases t with _ | ⟨a, t2⟩
    · simp [h c (List.mem_cons_self c [])]
    · simp

theorem dropWhile_of_nonspace (l : List Char)
    (h : ∀ c ∈ l, is_space_char c = false) : l.dropWhile is_space_char = l := by
  cases l with
  | nil => rfl
  | cons c t =>
    rw [List.dropWhile_cons, h c (List.mem_cons_self c t)]
    simp

theorem strip_of_nonspace (l : List Char)
    (h : ∀ c ∈ l, is_space_char c = false) : strip_chars l = l := by
  unfold strip_chars
  rw [dropWhile_of_nonspace l h, drop_trail_of_nonspace l h]

theorem drop_trail_head (c : Char) (t : List Char) (h : is_space_char c = false) :
    ∃ t2, drop_trail_spaces (c :: t) = c :: t2 := by
  unfold drop_trail_spaces
  dsimp only
  split_ifs with h1 h2
  · exact absurd h2 (by simp [h])
  · exact ⟨[], rfl⟩
  · exact ⟨drop_trail_spaces t, rfl⟩

theorem strip_head_hash (t : List Char) :
    ∃ t2, strip_chars ('#' :: t) = '#' :: t2 := by
  unfold strip_chars
  rw [List.dropWhile_cons]
  norm_num [is_space_char]
  exact drop_trail_head '#' t rfl

/-! ### Designation name facts -/

theorem designation_name_ne_nil (g : LocationDesignation) : designation_name g ≠ [] := by
  cases g <;> decide

theorem designation_name_upper (g : LocationDesignation) :
    (designation_name g).all is_upper_char = true := by
  cases g <;> decide

theorem designation_name_nonspace (g : LocationDesignation) :
    ∀ c ∈ designation_name g, is_space_char c = false := by
  cases g <;> decide

theorem designation_from_name_name (g : LocationDesignation) :
    designation_from_name (designation_name g) = some g := by
  cases g <;> rfl

theorem days_in_month_le (y m : Nat) : days_in_month y m ≤ 31 := by
  unfold days_in_month
  split_ifs <;> omega

/-- Round trip of the log codec: parsing a formatted line recovers the
date and designation, and the week field is the recomputed ISO week. -/
theorem parse_format_round (d : Date) (g : LocationDesignation) (hv : d.Valid) :
    parse_log_line (format_log_line d g) = some (d, g, iso_week d) := by
  have hw : iso_week d ≤ 54 := iso_week_le d hv
  obtain ⟨y, mo, dd⟩ := d
  simp only [Date.Valid] at hv
  obtain ⟨hy1, hy2, hm1, hm2, hd1, hd2⟩ := hv
  have hdm : dd ≤ 31 := le_trans hd2 (days_in_month_le y mo)
  rw [format_log_line, iso_format]
  dsimp only
  rw [pad4_eq y (by omega), pad2_eq mo (by omega), pad2_eq dd (by omega),
    pad2_eq _ (by omega : iso_week ⟨y, mo, dd⟩ < 100)]
  simp only [List.cons_append, List.nil_append]
  rw [parse_log_line, strip_of_nonspace]
  · rw [parse_core]
    dsimp only
    rw [if_neg (by exact (digit_char_facts (y / 1000) (by omega)).2.2.2)]
    rw [if_pos]
    · have hyv : char_val (digit_char (y / 1000)) * 1000 +
          char_val (digit_char (y / 100 % 10)) * 100 +
          char_val (digit_char (y / 10 % 10)) * 10 + char_val (digit_char (y % 10)) = y := by
        rw [(digit_char_facts (y / 1000) (by omega)).2.1,
          (digit_char_facts (y / 100 % 10) (by omega)).2.1,
          (digit_char_facts (y / 10 % 10) (by omega)).2.1,
          (digit_char_facts (y % 10) (by omega)).2.1]
        omega
      have hmov : char_val (digit_char (mo / 10)) * 10 + char_val (digit_char (mo % 10)) = mo := by
        rw [(digit_char_facts (mo / 10) (by omega)).2.1,
          (digit_char_facts (mo % 10) (by omega)).2.1]
        omega
      have hddv : char_val (digit_char (dd / 10)) * 10 + char_val (digit_char (dd % 10)) = dd := by
        rw [(digit_char_facts (dd / 10) (by omega)).2.1,
          (digit_char_facts (dd % 10) (by omega)).2.1]
        omega
      have hwv : char_val (digit_char (iso_week ⟨y, mo, dd⟩ / 10)) * 10 +
          char_val (digit_char (iso_week ⟨y, mo, dd⟩ % 10)) = iso_week ⟨y, mo, dd⟩ := by
        rw [(digit_char_facts (iso_week ⟨y, mo, dd⟩ / 10) (by omega)).2.1,
          (digit_char_facts (iso_week ⟨y, mo, dd⟩ % 10) (by omega)).2.1]
        omega
      rw [hyv, hmov, hddv, hwv]
      rw [if_pos (by exact ⟨hy1, hy2, hm1, hm2, hd1, hd2⟩)]
      rw [designation_from_name_name]
    · refine ⟨(digit_char_facts (y / 1000) (by omega)).1,
        (digit_char_facts (y / 100 % 10) (by omega)).1,
        (digit_char_facts (y / 10 % 10) (by omega)).1,
        (digit_char_facts (y % 10) (by omega)).1, rfl,
        (digit_char_facts (mo / 10) (by omega)).1,
        (digit_char_facts (mo % 10) (by omega)).1, rfl,
        (digit_char_facts (dd / 10) (by omega)).1,
        (digit_char_facts (dd % 10) (by omega)).1, rfl, rfl,
        (digit_char_facts (iso_week ⟨y, mo, dd⟩ / 10) (by omega)).1,
        (digit_char_facts (iso_week ⟨y, mo, dd⟩ % 10) (by omega)).1, rfl,
        designation_name_ne_nil g, designation_name_upper g⟩
  · intro c hc
    simp only [List.mem_cons] at hc
    rcases hc with rfl|rfl|rfl|rfl|rfl|rfl|rfl|rfl|rfl|rfl|rfl|rfl|rfl|rfl|rfl|hc
    all_goals first
      | rfl
      | exact (digit_char_facts _ (by omega)).2.2.1
      | exact designation_name_nonspace g c hc



open LocationDesignation

/-! ### Dict lemmas -/

theorem dict_find_insert_self (k : Date) (v : LocationDesignation) (m : YearData) :
    dict_find k (dict_insert k v m) = some v := by
  induction m with
  | nil => simp [dict_insert, dict_find]
  | cons p t ih =>
    unfold dict_insert
    by_cases h : p.1 = k
    · rw [if_pos h]
      simp [dict_find]
    · rw [if_neg h]
      unfold dict_find
      rw [if_neg h]
      exact ih

theorem dict_find_insert_other (e k : Date) (v : LocationDesignation) (m : YearData)
    (h : e ≠ k) : dict_find e (dict_insert k v m) = dict_find e m := by
  induction m with
  | nil =>
    simp [dict_insert, dict_find]
    intro he
    exact absurd he.symm h
  | cons p t ih =>
    unfold dict_insert
    by_cases hp : p.1 = k
    · rw [if_pos hp]
      unfold dict_find
      rw [if_neg (by rw [hp] at *; exact fun hh => h hh.symm), if_neg (by rw [hp]; exact fun hh => h hh.symm)]
    · rw [if_neg hp]
      unfold dict_find
      by_cases hpe : p.1 = e
      · rw [if_pos hpe, if_pos hpe]
      · rw [if_neg hpe, if_neg hpe]
        exact ih

theorem dict_mem_insert (x k : Date) (v : LocationDesignation) (m : YearData) :
    dict_mem x (dict_insert k v m) = true ↔ x = k ∨ dict_mem x m = true := by
  unfold dict_mem
  by_cases h : x = k
  · subst h
    rw [dict_find_insert_self]
    simp
  · rw [dict_find_insert_other x k v m h]
    simp [h]

theorem dict_find_remove_self (k : Date) (m : YearData) :
    dict_find k (dict_remove k m) = none := by
  induction m with
  | nil => rfl
  | cons p t ih =>
    unfold dict_remove
    by_cases h : p.1 = k
    · rw [if_pos h]
      exact ih
    · rw [if_neg h]
      unfold dict_find
      rw [if_neg h]
      exact ih

theorem dict_find_remove_other (e k : Date) (m : YearData) (h : e ≠ k) :
    dict_find e (dict_remove k m) = dict_find e m := by
  induction m with
  | nil => rfl
  | cons p t ih =>
    unfold dict_remove
    by_cases hp : p.1 = k
    · rw [if_pos hp, ih]
      simp only [dict_find]
      rw [if_neg (by rw [hp]; exact fun hh => h hh.symm)]
    · rw [if_neg hp]
      simp only [dict_find]
      by_cases hpe : p.1 = e
      · rw [if_pos hpe, if_pos hpe]
      · rw [if_neg hpe, if_neg hpe]
        exact ih

theorem dict_find_map_pairs (k : Date) (ks : List Date) (f : Date → LocationDesignation) :
    dict_find k (ks.map (fun x => (x, f x))) =
      if k ∈ ks then some (f k) else none := by
  induction ks with
  | nil => rfl
  | cons a t ih =>
    rw [List.map_cons]
    unfold dict_find
    by_cases h : a = k
    · subst h
      simp
    · rw [if_neg (by simpa using h)]
      rw [ih]
      by_cases hm : k ∈ t
      · rw [if_pos hm, if_pos (List.mem_cons_of_mem a hm)]
      · rw [if_neg hm, if_neg (by
          simp only [List.mem_cons]
          push_neg
          exact ⟨fun hh => h hh.symm, hm⟩)]

theorem dict_insert_fresh (k : Date) (v : LocationDesignation) (m : YearData)
    (h : dict_mem k m = false) : dict_insert k v m = m ++ [(k, v)] := by
  induction m with
  | nil => rfl
  | cons p t ih =>
    unfold dict_mem dict_find at h
    unfold dict_insert
    by_cases hp : p.1 = k
    · rw [if_pos hp] at h
      simp at h
    · rw [if_neg hp] at h ⊢
      rw [ih h]
      rfl

theorem dict_find_append (e : Date) (a b : YearData) :
    dict_find e (a ++ b) =
      match dict_find e a with
      | some v => some v
      | none => dict_find e b := by
  induction a with
  | nil => rfl
  | cons p t ih =>
    simp only [List.cons_append, dict_find]
    by_cases hp : p.1 = e
    · rw [if_pos hp, if_pos hp]
    · rw [if_neg hp, if_neg hp]
      exact ih

theorem dict_mem_append (e : Date) (a b : YearData) :
    dict_mem e (a ++ b) = (dict_mem e a || dict_mem e b) := by
  unfold dict_mem
  rw [dict_find_append]
  cases dict_find e a <;> simp

/-! ### Loading a saved file -/

theorem parse_log_line_nil : parse_log_line [] = none := rfl

theorem parse_hash (t : List Char) : parse_log_line ('#' :: t) = none := by
  unfold parse_log_line
  obtain ⟨t2, h⟩ := strip_head_hash t
  rw [h]
  simp [parse_core]

theorem parse_header_none (year : Nat) :
    ∀ line ∈ header_lines year, parse_log_line line = none := by
  intro line hline
  unfold header_lines at hline
  simp only [List.mem_cons] at hline
  rcases hline with rfl | rfl | rfl | rfl | rfl | h
  · exact parse_hash _
  · exact parse_hash _
  · exact parse_hash _
  · exact parse_hash _
  · exact parse_log_line_nil
  · simp at h

/-- One step of the `load_year_data` fold. -/
theorem load_year_data_eq (file : List (List Char)) :
    load_year_data file = file.foldl
      (fun data line =>
        match parse_log_line line with
        | some (d, g, _) => dict_insert d g data
        | none => data) [] := rfl

theorem load_formatted (ds : List Date) (f : Date → LocationDesignation) (acc : YearData)
    (hv : ∀ d ∈ ds, d.Valid) (hnd : ds.Nodup) (hfresh : ∀ d ∈ ds, dict_mem d acc = false) :
    (ds.map (fun d => format_log_line d (f d))).foldl
      (fun data line =>
        match parse_log_line line with
        | some (d, g, _) => dict_insert d g data
        | none => data) acc = acc ++ ds.map (fun d => (d, f d)) := by
  induction ds generalizing acc with
  | nil => simp
  | cons d t ih =>
    rw [List.map_cons, List.foldl_cons]
    rw [parse_format_round d (f d) (hv d (List.mem_cons_self d t))]
    dsimp only
    rw [dict_insert_fresh d (f d) acc (hfresh d (List.mem_cons_self d t))]
    have hfresh2 : ∀ e ∈ t, dict_mem e (acc ++ [(d, f d)]) = false := by
      intro e he
      rw [dict_mem_append]
      rw [hfresh e (List.mem_cons_of_mem d he)]
      have hne : e ≠ d := by
        intro hh
        subst hh
        exact (List.nodup_cons.mp hnd).1 he
      unfold dict_mem dict_find
      rw [if_neg (by simpa using hne.symm)]
      rfl
    rw [ih (acc ++ [(d, f d)]) (fun e he => hv e (List.mem_cons_of_mem d he))
      (List.Nodup.of_cons hnd) hfresh2]
    simp

theorem load_save (year : Nat) (m : YearData)
    (hnd : (m.map Prod.fst).Nodup) (hv : ∀ k ∈ m.map Prod.fst, k.Valid) :
    load_year_data (save_year_data year m) =
      (sort_dates (m.map Prod.fst)).map (fun d => (d, data_at m d)) := by
  rw [load_year_data_eq, save_year_data, List.foldl_append]
  have hskip : (header_lines year).foldl
      (fun data line =>
        match parse_log_line line with
        | some (d, g, _) => dict_insert d g data
        | none => data) ([] : YearData) = [] := by
    have := parse_header_none year
    unfold header_lines at this ⊢
    rw [List.foldl_cons, this _ (by simp), List.foldl_cons, this _ (by simp),
      List.foldl_cons, this _ (by simp), List.foldl_cons, this _ (by simp),
      List.foldl_cons, this _ (by simp)]
    rfl
  rw [hskip]
  have hperm : (sort_dates (m.map Prod.fst)).Perm (m.map Prod.fst) :=
    List.perm_insertionSort date_le (m.map Prod.fst)
  rw [load_formatted (sort_dates (m.map Prod.fst)) (data_at m) []
    (fun d hd => hv d (hperm.mem_iff.mp hd))
    (hperm.nodup_iff.mpr hnd)
    (fun d _ => rfl)]
  rfl

theorem sort_dates_sorted (l : List Date) : List.Sorted date_le (sort_dates l) :=
  List.sorted_insertionSort date_le l

theorem sort_dates_of_sorted (l : List Date) (h : List.Sorted date_le l) :
    sort_dates l = l :=
  List.Sorted.insertionSort_eq h

theorem data_at_map_pairs (ks : List Date) (f : Date → LocationDesignation) (d : Date)
    (hd : d ∈ ks) : data_at (ks.map (fun x => (x, f x))) d = f d := by
  unfold data_at
  rw [dict_find_map_pairs, if_pos hd]
  rfl

/-- Saving what was just loaded from a saved file reproduces the file. -/
theorem save_load_save (year : Nat) (m : YearData)
    (hnd : (m.map Prod.fst).Nodup) (hv : ∀ k ∈ m.map Prod.fst, k.Valid) :
    save_year_data year (load_year_data (save_year_data year m)) =
      save_year_data year m := by
  rw [load_save year m hnd hv]
  unfold save_year_data
  congr 1
  have hfst : ((sort_dates (m.map Prod.fst)).map (fun d => (d, data_at m d))).map Prod.fst =
      sort_dates (m.map Prod.fst) := by
    rw [List.map_map]
    exact List.map_id _
  rw [hfst]
  rw [sort_dates_of_sorted _ (sort_dates_sorted (m.map Prod.fst))]
  apply List.map_congr_left
  intro d hd
  rw [data_at_map_pairs (sort_dates (m.map Prod.fst)) (data_at m) d hd]



end SeatTracker

namespace SeatTracker

open LocationDesignation

/-! ### Validation characterization -/

theorem validate_empty_iff (year : Nat) (file : List (List Char)) :
    validate_data year file = [] ↔
      ∀ p ∈ file.enum, line_errors year (p.1 + 1) p.2 = [] := by
  unfold validate_data
  rw [List.flatten_eq_nil_iff]
  constructor
  · intro h p hp
    exact h _ (List.mem_map_of_mem _ hp)
  · intro h l hl
    rw [List.mem_map] at hl
    obtain ⟨p, hp, rfl⟩ := hl
    exact h p hp

theorem line_errors_empty_iff (year n : Nat) (line : List Char) :
    line_errors year n line = [] ↔
      (strip_chars line = [] ∨ (strip_chars line).head? = some '#' ∨
        ∃ d g wk, parse_log_line (strip_chars line) = some (d, g, wk) ∧
          wk = iso_week d ∧ d.year = year) := by
  unfold line_errors
  dsimp only
  split_ifs with h1 h2
  · simp [h1]
  · simp [h2]
  · rcases hp : parse_log_line (strip_chars line) with _ | ⟨d, g, wk⟩
    · constructor
      · intro hc
        simp at hc
      · intro hc
        rcases hc with hc | hc | ⟨d, g, wk, hc, _⟩
        · exact absurd hc h1
        · exact absurd hc h2
        · cases hc
    · dsimp only
      constructor
      · intro hc
        refine Or.inr (Or.inr ⟨d, g, wk, rfl, ?_⟩)
        by_cases hw : wk ≠ iso_week d
        · rw [if_pos hw] at hc
          simp at hc
        · by_cases hy : d.year ≠ year
          · rw [if_neg hw, if_pos hy] at hc
            simp at hc
          · push_neg at hw hy
            exact ⟨hw, hy⟩
      · rintro (hc | hc | ⟨d2, g2, wk2, hc, hw, hy⟩)
        · exact absurd hc h1
        · exact absurd hc h2
        · have hq : d = d2 ∧ g = g2 ∧ wk = wk2 := by
            simpa [Prod.ext_iff] using hc
          obtain ⟨rfl, rfl, rfl⟩ := hq
          rw [if_neg (by simpa using hw), if_neg (by simpa using hy)]
          rfl

/-! ### Load fold characterization (duplicate lines: last one wins) -/

theorem load_eq_entries_fold (file : List (List Char)) (acc : YearData) :
    file.foldl
      (fun data line =>
        match parse_log_line line with
        | some (d, g, _) => dict_insert d g data
        | none => data) acc =
    (file.filterMap (fun l => (parse_log_line l).map (fun t => (t.1, t.2.1)))).foldl
      (fun data p => dict_insert p.1 p.2 data) acc := by
  induction file generalizing acc with
  | nil => rfl
  | cons l t ih =>
    rw [List.foldl_cons, List.filterMap_cons]
    rcases hp : parse_log_line l with _ | ⟨d, g, wk⟩ <;> dsimp only
    · exact ih acc
    · exact ih (dict_insert d g acc)

theorem dict_find_foldl_insert (entries : YearData) (acc : YearData) (d : Date) :
    dict_find d (entries.foldl (fun data p => dict_insert p.1 p.2 data) acc) =
      match entries.reverse.find? (fun p => decide (p.1 = d)) with
      | some p => some p.2
      | none => dict_find d acc := by
  induction entries using List.reverseRecOn generalizing acc with
  | nil => rfl
  | append_singleton l p ih =>
    rw [List.foldl_append, List.foldl_cons, List.foldl_nil, List.reverse_append]
    simp only [List.reverse_singleton, List.singleton_append, List.find?_cons]
    by_cases hp : p.1 = d
    · rw [(by simpa using hp : decide (p.1 = d) = true)]
      dsimp only
      subst hp
      exact dict_find_insert_self p.1 p.2 _
    · rw [(by simpa using hp : decide (p.1 = d) = false)]
      dsimp only
      rw [dict_find_insert_other d p.1 p.2 _ (fun hh => hp hh.symm)]
      exact ih acc

/-! ### Statistics helpers -/

theorem foldl_insert_filterMap (ds : List Date) (F : Date → Option LocationDesignation)
    (acc : YearData) (hnd : ds.Nodup) (hfresh : ∀ d ∈ ds, dict_mem d acc = false) :
    ds.foldl (fun a dt =>
      match F dt with
      | some g => dict_insert dt g a
      | none => a) acc =
      acc ++ ds.filterMap (fun dt => (F dt).map (fun g => (dt, g))) := by
  induction ds generalizing acc with
  | nil => simp
  | cons d t ih =>
    rw [List.foldl_cons, List.filterMap_cons]
    rcases hF : F d with _ | g <;> dsimp only
    · exact ih acc (List.Nodup.of_cons hnd) (fun e he => hfresh e (List.mem_cons_of_mem d he))
    · rw [dict_insert_fresh d g acc (hfresh d (List.mem_cons_self d t))]
      have hfresh2 : ∀ e ∈ t, dict_mem e (acc ++ [(d, g)]) = false := by
        intro e he
        rw [dict_mem_append, hfresh e (List.mem_cons_of_mem d he)]
        have hne : e ≠ d := by
          intro hh
          subst hh
          exact (List.nodup_cons.mp hnd).1 he
        unfold dict_mem dict_find
        rw [if_neg (by simpa using hne.symm)]
        rfl
      rw [ih (acc ++ [(d, g)]) (List.Nodup.of_cons hnd) hfresh2]
      simp

theorem period_dates_nodup (s e : Date) (hs : 1 ≤ ymd2ord s) :
    (period_dates s e).Nodup := by
  unfold period_dates
  refine List.Nodup.map_on ?_ (List.nodup_range _)
  intro a ha b hb hfe
  have := ord2ymd_inj (ymd2ord s + a) (ymd2ord s + b) (by omega) (by omega) hfe
  omega

theorem period_entries_eq (store : Nat → YearData) (s e : Date)
    (hnd : (period_dates s e).Nodup) :
    period_entries store s e =
      (period_dates s e).filterMap
        (fun dt => (dict_find dt (store dt.year)).map (fun g => (dt, g))) := by
  unfold period_entries
  exact foldl_insert_filterMap (period_dates s e)
    (fun dt => dict_find dt (store dt.year)) [] hnd (fun d _ => rfl)

theorem length_filterMap_pairs (ds : List Date) (F : Date → Option LocationDesignation) :
    (ds.filterMap (fun dt => (F dt).map (fun g => (dt, g)))).length =
      ds.countP (fun dt => (F dt).isSome) := by
  induction ds with
  | nil => rfl
  | cons d t ih =>
    rw [List.filterMap_cons, List.countP_cons]
    rcases hF : F d with _ | g <;> simp [ih, hF]

theorem map_snd_filterMap_pairs (ds : List Date) (F : Date → Option LocationDesignation) :
    (ds.filterMap (fun dt => (F dt).map (fun g => (dt, g)))).map Prod.snd =
      ds.filterMap F := by
  induction ds with
  | nil => rfl
  | cons d t ih =>
    rw [List.filterMap_cons, List.filterMap_cons]
    rcases hF : F d with _ | g <;> simp [ih]

/-! ### Calendar helpers -/

theorem getD_map_lt {α β : Type} (f : α → β) (l : List α) (i : Nat) (da : α) (db : β)
    (h : i < l.length) : (l.map f).getD i db = f (l.getD i da) := by
  rw [List.getD_eq_getElem l da h, List.getD_eq_getElem (l.map f) db (by simpa using h)]
  simp

theorem week_dates_length (y m : Nat) (week : List Nat) :
    (week_dates y m week).length = 7 := by
  unfold week_dates
  rcases week.find? (fun d => decide (d ≠ 0)) with _ | a <;> simp

theorem chunk7_core_irrel (f1 : Nat) : ∀ (f2 : Nat) (l : List Nat), l.length ≤ f1 →
    l.length ≤ f2 → chunk7_core f1 l = chunk7_core f2 l := by
  induction f1 using Nat.strong_induction_on with
  | _ f1 ih =>
    intro f2 l h1 h2
    rcases l with _ | ⟨c, t⟩
    · rcases f1 with _ | fa <;> rcases f2 with _ | fb <;> rfl
    · rcases f1 with _ | fa
      · simp only [List.length_cons] at h1
        omega
      · rcases f2 with _ | fb
        · simp only [List.length_cons] at h2
          omega
        · have hd : ((c :: t).drop 7).length = t.length + 1 - 7 := by
            simp
          have h1c : t.length + 1 ≤ fa + 1 := by simpa using h1
          have h2c : t.length + 1 ≤ fb + 1 := by simpa using h2
          rw [chunk7_core, chunk7_core]
          congr 1
          exact ih fa (by omega) fb ((c :: t).drop 7) (by rw [hd]; omega) (by rw [hd]; omega)

/-- `chunk7` satisfies the natural recurrence of splitting off seven
cells at a time. -/
theorem chunk7_eq (l : List Nat) : chunk7 l =
    match l with
    | [] => []
    | c :: t => ((c :: t).take 7) :: chunk7 ((c :: t).drop 7) := by
  rcases l with _ | ⟨c, t⟩
  · rfl
  · show chunk7_core (c :: t).length (c :: t) = _
    simp only [List.length_cons]
    rw [chunk7_core]
    congr 1
    refine chunk7_core_irrel t.length _ _ ?_ (le_refl _)
    simp only [List.length_drop, List.length_cons]
    omega

end SeatTracker

namespace SeatTracker

open LocationDesignation

theorem week_saturday_ne_sunday (d : Date) : week_saturday d ≠ week_sunday d := by
  intro h
  have := ord2ymd_inj (ymd2ord d - d.weekday + 5) (ymd2ord d - d.weekday + 6)
    (by omega) (by omega) h
  omega

theorem set_designation_auto_eq (d : Date) (g : LocationDesignation) (m : YearData) :
    set_designation d g true m = auto_populate_weekend d (dict_insert d g m) := rfl

theorem dict_mem_insert_eq_false (x k : Date) (v : LocationDesignation) (m : YearData) :
    dict_mem x (dict_insert k v m) = false ↔ x ≠ k ∧ dict_mem x m = false := by
  constructor
  · intro h
    constructor
    · intro hx
      have := (dict_mem_insert x k v m).2 (Or.inl hx)
      rw [h] at this
      cases this
    · cases hm : dict_mem x m
      · rfl
      · have := (dict_mem_insert x k v m).2 (Or.inr hm)
        rw [h] at this
        cases this
  · rintro ⟨hxk, hm⟩
    cases hi : dict_mem x (dict_insert k v m)
    · rfl
    · rcases (dict_mem_insert x k v m).1 hi with hh | hh
      · exact absurd hh hxk
      · rw [hm] at hh
        cases hh

theorem get_designation_none (store : Nat → YearData) (d : Date)
    (hn : dict_find d (store d.year) = none) :
    get_designation store d = get_default_designation d := by
  unfold get_designation
  rw [hn]

/-- C1: with auto-weekend enabled, `set_designation d g` stores `g` at `d`,
auto-fills the Saturday and Sunday of the Monday-start week of `d` with
WEEKEND exactly when they were absent from the loaded map (and not equal
to `d` itself), and leaves every other pre-existing explicit entry
unchanged — in particular an existing Saturday `TRAVEL` entry is never
overwritten. -/
theorem claim_C1_set_designation_auto_weekend (d : Date) (g : LocationDesignation)
    (m : YearData) :
    dict_find d (set_designation d g true m) = some g ∧
    (dict_mem (week_saturday d) m = false → week_saturday d ≠ d →
      dict_find (week_saturday d) (set_designation d g true m) = some WEEKEND) ∧
    (dict_mem (week_sunday d) m = false → week_sunday d ≠ d →
      dict_find (week_sunday d) (set_designation d g true m) = some WEEKEND) ∧
    (∀ e, dict_mem e m = true → e ≠ d →
      dict_find e (set_designation d g true m) = dict_find e m) := by
  rw [set_designation_auto_eq]
  unfold auto_populate_weekend
  dsimp only
  have hdm1 : dict_mem d (dict_insert d g m) = true := by
    unfold dict_mem
    rw [dict_find_insert_self]
    rfl
  refine ⟨?_, ?_, ?_, ?_⟩
  · split_ifs with hs hu hu
    · exact dict_find_insert_self d g m
    · have hud : week_sunday d ≠ d := fun hh => hu (by rw [hh]; exact hdm1)
      rw [dict_find_insert_other d (week_sunday d) WEEKEND _ (fun hh => hud hh.symm)]
      exact dict_find_insert_self d g m
    · have hsd : week_saturday d ≠ d := fun hh => hs (by rw [hh]; exact hdm1)
      rw [dict_find_insert_other d (week_saturday d) WEEKEND _ (fun hh => hsd hh.symm)]
      exact dict_find_insert_self d g m
    · have hsd : week_saturday d ≠ d := fun hh => hs (by rw [hh]; exact hdm1)
      have hud : week_sunday d ≠ d := fun hh => hu (by
        rw [hh]
        exact (dict_mem_insert d (week_saturday d) WEEKEND (dict_insert d g m)).2
          (Or.inr hdm1))
      rw [dict_find_insert_other d (week_sunday d) WEEKEND _ (fun hh => hud hh.symm),
        dict_find_insert_other d (week_saturday d) WEEKEND _ (fun hh => hsd hh.symm)]
      exact dict_find_insert_self d g m
  · intro habs hne
    have hsf : dict_mem (week_saturday d) (dict_insert d g m) = false :=
      (dict_mem_insert_eq_false _ d g m).2 ⟨hne, habs⟩
    have hs2 : ¬ dict_mem (week_saturday d) (dict_insert d g m) = true := by
      rw [hsf]
      exact Bool.false_ne_true
    rw [if_neg hs2]
    split_ifs with hu
    · exact dict_find_insert_self _ WEEKEND _
    · rw [dict_find_insert_other (week_saturday d) (week_sunday d) WEEKEND _
        (week_saturday_ne_sunday d)]
      exact dict_find_insert_self _ WEEKEND _
  · intro habs hne
    have h1 : dict_mem (week_sunday d) (dict_insert d g m) = false :=
      (dict_mem_insert_eq_false _ d g m).2 ⟨hne, habs⟩
    split_ifs with hs hu hu
    · rw [h1] at hu
      cases hu
    · exact dict_find_insert_self _ WEEKEND _
    · exfalso
      rcases (dict_mem_insert _ _ WEEKEND _).1 hu with hh | hh
      · exact week_saturday_ne_sunday d hh.symm
      · rw [h1] at hh
        cases hh
    · exact dict_find_insert_self _ WEEKEND _
  · intro e he hne
    have hem1 : dict_mem e (dict_insert d g m) = true :=
      (dict_mem_insert e d g m).2 (Or.inr he)
    have hfind1 : dict_find e (dict_insert d g m) = dict_find e m :=
      dict_find_insert_other e d g m hne
    split_ifs with hs hu hu
    · exact hfind1
    · have hes : e ≠ week_sunday d := fun hh => hu (by rw [← hh]; exact hem1)
      rw [dict_find_insert_other e _ WEEKEND _ hes]
      exact hfind1
    · have hes : e ≠ week_saturday d := fun hh => hs (by rw [← hh]; exact hem1)
      rw [dict_find_insert_other e _ WEEKEND _ hes]
      exact hfind1
    · have hesat : e ≠ week_saturday d := fun hh => hs (by rw [← hh]; exact hem1)
      have hesun : e ≠ week_sunday d := fun hh => hu (by
        rw [← hh]
        exact (dict_mem_insert e _ WEEKEND _).2 (Or.inr hem1))
      rw [dict_find_insert_other e _ WEEKEND _ hesun,
        dict_find_insert_other e _ WEEKEND _ hesat]
      exact hfind1

/-- C1 witness at the spec example: setting Monday 2025-10-13 to LAB on an
empty year auto-creates Weekend entries for 2025-10-18 and 2025-10-19. -/
theorem claim_C1_witness :
    dict_find ⟨2025, 10, 18⟩ (set_designation ⟨2025, 10, 13⟩ LAB true []) = some WEEKEND ∧
    dict_find ⟨2025, 10, 19⟩ (set_designation ⟨2025, 10, 13⟩ LAB true []) = some WEEKEND ∧
    dict_find ⟨2025, 10, 13⟩ (set_designation ⟨2025, 10, 13⟩ LAB true []) = some LAB := by
  have h := claim_C1_set_designation_auto_weekend ⟨2025, 10, 13⟩ LAB []
  refine ⟨?_, ?_, h.1⟩
  · have hs := h.2.1 (by decide) (by decide)
    have he : week_saturday ⟨2025, 10, 13⟩ = ⟨2025, 10, 18⟩ := by decide
    rw [he] at hs
    exact hs
  · have hu := h.2.2.1 (by decide) (by decide)
    have he : week_sunday ⟨2025, 10, 13⟩ = ⟨2025, 10, 19⟩ := by decide
    rw [he] at hu
    exact hu

/-- C6: `get_designation` returns the explicit entry when present, and
otherwise the weekday default: HOME on Monday (0) and Friday (4), LAB on
Tuesday..Thursday (1..3), WEEKEND on Saturday (5) and Sunday (6). -/
theorem claim_C6_default_designation (store : Nat → YearData) (d : Date) :
    (∀ g, dict_find d (store d.year) = some g → get_designation store d = g) ∧
    (dict_find d (store d.year) = none →
      ((d.weekday = 0 ∨ d.weekday = 4) → get_designation store d = HOME) ∧
      ((d.weekday = 1 ∨ d.weekday = 2 ∨ d.weekday = 3) → get_designation store d = LAB) ∧
      ((d.weekday = 5 ∨ d.weekday = 6) → get_designation store d = WEEKEND)) := by
  constructor
  · intro g hg
    unfold get_designation
    rw [hg]
  · intro hn
    rw [get_designation_none store d hn]
    unfold get_default_designation
    dsimp only
    refine ⟨fun h => ?_, fun h => ?_, fun h => ?_⟩
    · rw [if_pos h]
    · rw [if_neg (by omega), if_pos h]
    · rw [if_neg (by omega), if_neg (by omega)]

/-- C6 witness: 2025-10-13 is a Monday; with no explicit entry the default
is HOME. -/
theorem claim_C6_witness :
    get_designation (fun _ => []) ⟨2025, 10, 13⟩ = HOME :=
  ((claim_C6_default_designation (fun _ => []) ⟨2025, 10, 13⟩).2 rfl).1 (by decide)

/-- C8: `delete_designation` removes the entry and rewrites the file
exactly when the date has an explicit entry (other dates, including
auto-created weekend entries, are untouched); otherwise it returns false
and performs no write. -/
theorem claim_C8_delete_designation (d : Date) (m : YearData) :
    (dict_mem d m = true →
      delete_designation d m = (true, some (dict_remove d m)) ∧
      dict_find d (dict_remove d m) = none ∧
      (∀ e, e ≠ d → dict_find e (dict_remove d m) = dict_find e m)) ∧
    (dict_mem d m = false → delete_designation d m = (false, none)) := by
  constructor
  · intro h
    refine ⟨?_, dict_find_remove_self d m, fun e he => dict_find_remove_other e d m he⟩
    unfold delete_designation
    rw [if_pos h]
  · intro h
    unfold delete_designation
    rw [if_neg (by rw [h]; exact Bool.false_ne_true)]

/-- C8 witness at a concrete state. -/
theorem claim_C8_witness :
    delete_designation ⟨2024, 1, 1⟩ [] = (false, none) ∧
    delete_designation ⟨2024, 1, 1⟩ [(⟨2024, 1, 1⟩, HOME)] = (true, some []) := by
  constructor
  · exact (claim_C8_delete_designation ⟨2024, 1, 1⟩ []).2 rfl
  · have h := ((claim_C8_delete_designation ⟨2024, 1, 1⟩ [(⟨2024, 1, 1⟩, HOME)]).1 rfl).1
    rw [h]
    rfl

end SeatTracker

namespace SeatTracker

open LocationDesignation

/-! ### Parsing implies validity -/

theorem parse_core_valid (l : List Char) (d : Date) (g : LocationDesignation) (wk : Nat)
    (h : parse_core l = some (d, g, wk)) : d.Valid := by
  rcases l with _ | ⟨c1, rest1⟩
  · rw [parse_core] at h
    cases h
  · rw [parse_core] at h
    dsimp only at h
    by_cases hh : c1 = '#'
    · rw [if_pos hh] at h
      cases h
    · rw [if_neg hh] at h
      split at h
      · split_ifs at h with hc hv
        · split at h
          · injection h with h1
            simp only [Prod.mk.injEq] at h1
            obtain ⟨hd2, -⟩ := h1
            rw [← hd2]
            exact hv
          · cases h
      · cases h

theorem parse_log_line_valid (l : List Char) (d : Date) (g : LocationDesignation) (wk : Nat)
    (h : parse_log_line l = some (d, g, wk)) : d.Valid :=
  parse_core_valid (strip_chars l) d g wk h

/-- C3: the codec round trip: parsing the serialized line for a valid
date and designation yields exactly that date, that designation, and the
ISO week recomputed from the date; and re-serializing any parsed entry
(whatever week number the stored line carried) again writes the
recomputed ISO week. -/
theorem claim_C3_codec_round_trip (d : Date) (g : LocationDesignation) (hv : d.Valid) :
    parse_log_line (format_log_line d g) = some (d, g, iso_week d) ∧
    ∀ (l : List Char) (d2 : Date) (g2 : LocationDesignation) (wk : Nat),
      parse_log_line l = some (d2, g2, wk) →
        parse_log_line (format_log_line d2 g2) = some (d2, g2, iso_week d2) := by
  refine ⟨parse_format_round d g hv, ?_⟩
  intro l d2 g2 wk hl
  exact parse_format_round d2 g2 (parse_log_line_valid l d2 g2 wk hl)

/-- C3 witness at the spec end-to-end example date. -/
theorem claim_C3_witness :
    parse_log_line (format_log_line ⟨2025, 10, 13⟩ LAB) = some (⟨2025, 10, 13⟩, LAB, 42) := by
  have h := (claim_C3_codec_round_trip ⟨2025, 10, 13⟩ LAB (by decide)).1
  have he : iso_week ⟨2025, 10, 13⟩ = 42 := by decide
  rw [he] at h
  exact h

/-- C4: saving what `load_year_data` read back from a freshly saved file
reproduces the file content byte for byte; the file is the 4 fixed comment
header lines and a blank line followed by one serialized line per entry
in ascending date order. -/
theorem claim_C4_save_idempotent (year : Nat) (m : YearData)
    (hnd : (m.map Prod.fst).Nodup) (hv : ∀ k ∈ m.map Prod.fst, k.Valid) :
    save_year_data year (load_year_data (save_year_data year m)) = save_year_data year m ∧
    save_year_data year m = header_lines year ++
      (sort_dates (m.map Prod.fst)).map (fun d => format_log_line d (data_at m d)) ∧
    List.Sorted date_le (sort_dates (m.map Prod.fst)) ∧
    (header_lines year).length = 5 ∧
    (header_lines year).getD 4 ([' ']) = [] ∧
    ∀ l ∈ (header_lines year).take 4, l.head? = some '#' := by
  refine ⟨save_load_save year m hnd hv, rfl, sort_dates_sorted _, rfl, rfl, ?_⟩
  intro l hl
  simp only [header_lines, List.take, List.mem_cons, List.not_mem_nil, or_false] at hl
  rcases hl with rfl | rfl | rfl | rfl <;> rfl

/-- C4 witness on a concrete two-entry map given out of date order. -/
theorem claim_C4_witness :
    save_year_data 2024
        (load_year_data (save_year_data 2024 [(⟨2024, 1, 2⟩, HOME), (⟨2024, 1, 1⟩, LAB)])) =
      save_year_data 2024 [(⟨2024, 1, 2⟩, HOME), (⟨2024, 1, 1⟩, LAB)] :=
  (claim_C4_save_idempotent 2024 [(⟨2024, 1, 2⟩, HOME), (⟨2024, 1, 1⟩, LAB)]
    (by decide) (by decide)).1

/-- C2 (refuted): a single `set_designation` with auto-weekend can write
entries whose date year differs from the file's year.  Setting Monday
2024-12-30 auto-creates Weekend entries for 2025-01-04 and 2025-01-05 in
the map that is saved to `2024.log`, and `validate_data` itself flags the
resulting file. -/
theorem claim_C2_year_invariant_violation :
    set_designation ⟨2024, 12, 30⟩ HOME true [] =
      [(⟨2024, 12, 30⟩, HOME), (⟨2025, 1, 4⟩, WEEKEND), (⟨2025, 1, 5⟩, WEEKEND)] ∧
    (∃ p ∈ set_designation ⟨2024, 12, 30⟩ HOME true [], p.1.year ≠ 2024) ∧
    validate_data 2024
      (save_year_data 2024 (set_designation ⟨2024, 12, 30⟩ HOME true [])) ≠ [] := by
  refine ⟨by decide, ⟨(⟨2025, 1, 4⟩, WEEKEND), by decide, by decide⟩, by decide⟩

/-- C5: `get_period_stats` over `[s, e]`: requested days is the inclusive
span (also the number of iterated dates); actual days counts exactly the
dates with an explicit stored entry; per-designation counts count the
explicit entries only; each percentage is `count / actual_days`; and a
range with no explicit entries has `actual_days = 0` and every
percentage `0.0%`. -/
theorem claim_C5_period_stats (store : Nat → YearData) (s e : Date)
    (hvs : s.Valid) (hse : ymd2ord s ≤ ymd2ord e) :
    (get_period_stats store s e).requested_days =
      (ymd2ord e : Int) - (ymd2ord s : Int) + 1 ∧
    (get_period_stats store s e).requested_days = ((period_dates s e).length : Int) ∧
    (get_period_stats store s e).actual_days =
      (period_dates s e).countP (fun dt => dict_mem dt (store dt.year)) ∧
    (∀ g, (get_period_stats store s e).counts g =
      ((period_dates s e).filterMap (fun dt => dict_find dt (store dt.year))).count g) ∧
    (∀ g, (get_period_stats store s e).percentages g =
      format_percentage ((get_period_stats store s e).counts g)
        (get_period_stats store s e).actual_days) ∧
    ((get_period_stats store s e).actual_days = 0 →
      ∀ g, (get_period_stats store s e).percentages g = ('0' :: '.' :: '0' :: '%' :: [])) := by
  have h1 : 1 ≤ ymd2ord s := by
    refine ymd2ord_pos s ?_
    obtain ⟨_, _, _, _, hd, _⟩ := hvs
    exact hd
  have hnd := period_dates_nodup s e h1
  have hpe := period_entries_eq store s e hnd
  have hlen : (period_dates s e).length = ymd2ord e + 1 - ymd2ord s := by
    unfold period_dates
    rw [List.length_map, List.length_range]
  refine ⟨rfl, ?_, ?_, ?_, fun g => rfl, ?_⟩
  · show (ymd2ord e : Int) - (ymd2ord s : Int) + 1 = ((period_dates s e).length : Int)
    rw [hlen]
    omega
  · show (period_entries store s e).length = _
    rw [hpe, length_filterMap_pairs]
    rfl
  · intro g
    show ((period_entries store s e).map Prod.snd).count g = _
    rw [hpe, map_snd_filterMap_pairs]
  · intro h0 g
    have hl0 : (period_entries store s e).length = 0 := h0
    show format_percentage (((period_entries store s e).map Prod.snd).count g)
      (period_entries store s e).length = ('0' :: '.' :: '0' :: '%' :: [])
    rw [hl0]
    rfl

/-- C5 witness: a three-day range with no explicit entries. -/
theorem claim_C5_witness :
    (get_period_stats (fun _ => []) ⟨2024, 1, 1⟩ ⟨2024, 1, 3⟩).actual_days = 0 ∧
    (get_period_stats (fun _ => []) ⟨2024, 1, 1⟩ ⟨2024, 1, 3⟩).percentages HOME =
      ('0' :: '.' :: '0' :: '%' :: []) ∧
    (get_period_stats (fun _ => []) ⟨2024, 1, 1⟩ ⟨2024, 1, 3⟩).requested_days = 3 := by
  have h := claim_C5_period_stats (fun _ => []) ⟨2024, 1, 1⟩ ⟨2024, 1, 3⟩ (by decide) (by decide)
  have ha : (get_period_stats (fun _ => []) ⟨2024, 1, 1⟩ ⟨2024, 1, 3⟩).actual_days = 0 := by
    rw [h.2.2.1]
    decide
  refine ⟨ha, h.2.2.2.2.2 ha HOME, ?_⟩
  rw [h.1]
  decide

/-- C7: `validate_data` returns no errors exactly when every line is
blank, a comment, or parses with the correct ISO week for a date of the
file's year; the three spec examples behave as stated, and an unparseable
line is reported as an invalid-format error with its 1-indexed line
number. -/
theorem claim_C7_validate_data (year : Nat) (file : List (List Char)) :
    (validate_data year file = [] ↔
      ∀ p ∈ file.enum, strip_chars p.2 = [] ∨ (strip_chars p.2).head? = some '#' ∨
        ∃ d g wk, parse_log_line (strip_chars p.2) = some (d, g, wk) ∧
          wk = iso_week d ∧ d.year = year) ∧
    validate_data 2024 [("2024-01-01|W01|HOME").toList] = [] ∧
    validate_data 2024 [("2024-01-01|W02|HOME").toList] =
      [("Line 1: Week number mismatch for 2024-01-01 (expected W01, got W02)").toList] ∧
    validate_data 2024 [("2025-01-01|W01|HOME").toList] =
      [("Line 1: Date 2025-01-01 doesn\x27t belong in 2024.log").toList] ∧
    validate_data 2024 [("garbage").toList] =
      [("Line 1: Invalid format - garbage").toList] := by
  refine ⟨?_, by decide, by decide, by decide, by decide⟩
  refine Iff.trans (validate_empty_iff year file) ?_
  exact ⟨fun h p hp => (line_errors_empty_iff year (p.1 + 1) p.2).1 (h p hp),
    fun h p hp => (line_errors_empty_iff year (p.1 + 1) p.2).2 (h p hp)⟩

/-- C10: when several well-formed lines carry the same date, the loaded
map holds exactly one entry for that date — the one from the last such
line — and neither loading nor validation reports duplicates as an
error. -/
theorem claim_C10_duplicate_last_wins :
    (∀ (file : List (List Char)) (d : Date),
      dict_find d (load_year_data file) =
        (((file.filterMap
            (fun l => (parse_log_line l).map (fun t => (t.1, t.2.1)))).reverse.find?
          (fun p => decide (p.1 = d))).map Prod.snd)) ∧
    load_year_data [("2024-01-01|W01|HOME").toList, ("2024-01-01|W01|LAB").toList] =
      [(⟨2024, 1, 1⟩, LAB)] ∧
    validate_data 2024
      [("2024-01-01|W01|HOME").toList, ("2024-01-01|W01|LAB").toList] = [] := by
  refine ⟨?_, by decide, by decide⟩
  intro file d
  rw [load_year_data_eq, load_eq_entries_fold, dict_find_foldl_insert]
  rcases hfind : ((file.filterMap
      (fun l => (parse_log_line l).map (fun t => (t.1, t.2.1)))).reverse.find?
    (fun p => decide (p.1 = d))) with _ | p <;> rw [hfind] <;> rfl

theorem getD_replicate {α : Type} (n i : Nat) (a : α) :
    (List.replicate n a).getD i a = a := by
  rcases Nat.lt_or_ge i n with h | h
  · rw [List.getD_eq_getElem _ a (by simpa using h)]
    simp
  · rw [List.getD_eq_default]
    simpa using h

/-- C9: in the designation rows of the rendered month grid, the cell of a
grid date `d` shows the single-letter code of its explicit entry in the
consulted year map and a blank three-space cell when that map has no
entry (no weekday-default fallback); the consulted map is the previous
year's data for out-of-month days before January, the next year's data
for out-of-month days after December, and the rendered year's data for
in-year days. -/
theorem claim_C9_calendar_cells (store : Nat → YearData) (y m wi di : Nat) (d : Date)
    (hcell : (week_dates y m ((month_calendar y m).getD wi [])).getD di none = some d) :
    ((render_month_designation_rows store y m).getD wi []).getD di [] =
      designation_cell (year_data_for store y m d) d ∧
    (dict_find d (year_data_for store y m d) = none →
      ((render_month_designation_rows store y m).getD wi []).getD di [] =
        (' ' :: ' ' :: ' ' :: [])) ∧
    (∀ g, dict_find d (year_data_for store y m d) = some g →
      ((render_month_designation_rows store y m).getD wi []).getD di [] =
        (' ' :: short_code g :: ' ' :: [])) ∧
    (d.year < y → m = 1 → year_data_for store y m d = store (y - 1)) ∧
    (y < d.year → m = 12 → year_data_for store y m d = store (y + 1)) ∧
    (d.year = y → year_data_for store y m d = store y) := by
  have hwlen : (week_dates y m ((month_calendar y m).getD wi [])).length = 7 :=
    week_dates_length y m _
  have hdi : di < 7 := by
    by_contra hge
    rw [List.getD_eq_default _ _ (by rw [hwlen]; omega)] at hcell
    cases hcell
  have hwi : wi < (month_calendar y m).length := by
    by_contra hge
    push_neg at hge
    have h0 : (month_calendar y m).getD wi [] = [] := List.getD_eq_default _ _ hge
    rw [h0] at hcell
    have hrep : week_dates y m [] = List.replicate 7 none := rfl
    rw [hrep, getD_replicate] at hcell
    cases hcell
  have hrow : (render_month_designation_rows store y m).getD wi [] =
      (week_dates y m ((month_calendar y m).getD wi [])).map
        (fun od => match od with
          | some dd => designation_cell (year_data_for store y m dd) dd
          | none => (' ' :: ' ' :: ' ' :: [])) := by
    unfold render_month_designation_rows
    exact getD_map_lt _ _ wi [] [] hwi
  have hcellrow : ((render_month_designation_rows store y m).getD wi []).getD di [] =
      designation_cell (year_data_for store y m d) d := by
    rw [hrow, getD_map_lt _ _ di none [] (by rw [hwlen]; exact hdi), hcell]
  refine ⟨hcellrow, ?_, ?_, ?_, ?_, ?_⟩
  · intro hn
    rw [hcellrow]
    unfold designation_cell
    rw [hn]
  · intro g hg
    rw [hcellrow]
    unfold designation_cell
    rw [hg]
  · intro h1 h2
    unfold year_data_for
    dsimp only
    rw [if_pos h1, if_pos h2]
  · intro h1 h2
    unfold year_data_for
    dsimp only
    rw [if_neg (by omega), if_pos h1, if_pos h2]
  · intro h1
    unfold year_data_for
    dsimp only
    rw [if_neg (by omega), if_neg (by omega)]

/-- C9 witness: October 2025, grid week 2: the 13th (explicit LAB entry)
renders as ` L `, the 14th (no entry) renders blank even though its
weekday default would be LAB. -/
theorem claim_C9_witness :
    ((render_month_designation_rows (fun _ => [(⟨2025, 10, 13⟩, LAB)]) 2025 10).getD 2
        []).getD 0 [] = (' ' :: 'L' :: ' ' :: []) ∧
    ((render_month_designation_rows (fun _ => [(⟨2025, 10, 13⟩, LAB)]) 2025 10).getD 2
        []).getD 1 [] = (' ' :: ' ' :: ' ' :: []) := by
  have h1 := claim_C9_calendar_cells (fun _ => [(⟨2025, 10, 13⟩, LAB)]) 2025 10 2 0
    ⟨2025, 10, 13⟩ (by decide)
  have h2 := claim_C9_calendar_cells (fun _ => [(⟨2025, 10, 13⟩, LAB)]) 2025 10 2 1
    ⟨2025, 10, 14⟩ (by decide)
  exact ⟨h1.2.2.1 LAB (by decide), h2.2.1 (by decide)⟩

end SeatTracker
